import Mathlib

/-!
Verification development for the dirstudio scan-and-analyze engine.

The definitions below are shallow embeddings of the Python sources under
src/dirstudio/server/src/.  Paths handled by the filesystem-tree code are
modelled as lists of components, exactly as pathlib.Path.parts produces
them (an absolute POSIX path has the first component "/"); paths handled
by the snapshot and duplicate services, which treat them as opaque
dictionary keys, are modelled as plain strings.  Python dictionaries keyed
by strings are modelled as association lists in insertion order; where the
source iterates a set difference of dict-key sets we fix first-insertion
order, and each claim settled below is insensitive to that choice.
-/

set_option maxHeartbeats 1000000
set_option maxRecDepth 10000

/-- Bool test that a list of characters starts with another, used to embed
Python str.startswith over the character lists of the strings involved. -/
def listStartsWith : List Char → List Char → Bool
  | [], _ => true
  | _ :: _, [] => false
  | a :: as, b :: bs => a == b && listStartsWith as bs

/-- Bool test that a list of characters occurs contiguously inside another,
used to embed the Python substring operator in for strings. -/
def listHasInside (sub : List Char) : List Char → Bool
  | [] => sub.isEmpty
  | c :: rest => listStartsWith sub (c :: rest) || listHasInside sub rest

/-- Python str.startswith on strings. -/
def pyStartsWith (s pre : List Char) : Bool := listStartsWith pre s

/-- Python substring membership sub in s. -/
def pyInStr (sub s : String) : Bool := listHasInside sub.toList s.toList

/-- Python truthiness of an optional string: None and the empty string are
falsy, every other string is truthy. -/
def pyTruthyStr : Option String → Bool
  | none => false
  | some s => !(s == "")

/-- ASCII lower-casing of one character, as Python str.lower acts on the
ASCII mime and extension strings handled by the metadata code. -/
def charLower (c : Char) : Char :=
  if 65 ≤ c.toNat && c.toNat ≤ 90 then Char.ofNat (c.toNat + 32) else c

/-- Python str.lower on a string (ASCII range). -/
def pyLower (s : String) : String := ⟨s.toList.map charLower⟩

/-- MetaTag enum of core/metadata.py. -/
inductive MetaTag where
  | FILE | DIRECTORY | SYMLINK | HIDDEN | CORRUPTED
deriving DecidableEq

/-- MetaTime enum of core/metadata.py. -/
inductive MetaTime where
  | CREATED | ACCESSED | MODIFIED
deriving DecidableEq

/-- FileType enum of core/metadata.py. -/
inductive FileType where
  | TEXT | AUDIO | IMAGE | VIDEO | DOCUMENT | ARCHIVE | CODE | BINARY | UNKNOWN
deriving DecidableEq

/-- Metadata dataclass of core/metadata.py (slots, frozen).  Its fields are
path, size, tags, times, ino, owner, permissions, properties, mime; note in
particular that the timestamps field is named times and is keyed by the
MetaTime enum.  The path is kept as its pathlib components. -/
structure Metadata where
  path : List String
  size : Nat
  tags : List MetaTag
  times : List (MetaTime × String)
  ino : Nat
  owner : String
  permissions : String
  properties : List (String × String)
  mime : Option String
deriving DecidableEq

/-- document_mimes list in Metadata.filetype (matched by substring, the
source uses the Python operator in, not startswith). -/
def documentMimes : List String :=
  ["application/pdf", "application/msword",
   "application/vnd.openxmlformats-officedocument",
   "application/vnd.ms-excel", "application/vnd.ms-powerpoint",
   "application/rtf"]

/-- archive_mimes list in Metadata.filetype (matched by substring). -/
def archiveMimes : List String :=
  ["application/zip", "application/x-tar", "application/x-rar",
   "application/gzip", "application/x-7z-compressed", "application/x-bzip2"]

/-- code_extensions set in Metadata.filetype. -/
def codeExtensions : List String :=
  [".py", ".js", ".java", ".cpp", ".c", ".h", ".rs", ".go",
   ".rb", ".php", ".swift", ".kt", ".ts", ".jsx", ".tsx"]

/-- pathlib suffix of a file name: the substring from the last dot, when
that dot is neither the first nor the last character, else empty (the exact
rule of pathlib.PurePath.suffix). -/
def nameSuffix (name : String) : String :=
  let cs := name.toList
  let idxs := (List.range cs.length).filter (fun i => cs.getD i ' ' == '.')
  match idxs.getLast? with
  | some i => if 0 < i && i + 1 < cs.length then ⟨cs.drop i⟩ else ""
  | none => ""

/-- pathlib suffix of the last component of a component path. -/
def pathSuffix (p : List String) : String := nameSuffix (p.getLast?.getD "")

open FileType in
/-- Metadata.filetype property of core/metadata.py, translated branch for
branch: directories and files without a truthy mime are UNKNOWN; then the
mime prefixes image/, audio/, video/, text/ are tried in that order; then
the document and archive mime substrings; then the code extension set on
the path suffix; then the application/ prefix gives BINARY; else UNKNOWN. -/
def Metadata.filetype (m : Metadata) : FileType :=
  if m.tags.contains MetaTag.DIRECTORY || !(pyTruthyStr m.mime) then UNKNOWN
  else
    let mimeLower := pyLower (m.mime.getD "")
    if pyStartsWith mimeLower.toList "image/".toList then IMAGE
    else if pyStartsWith mimeLower.toList "audio/".toList then AUDIO
    else if pyStartsWith mimeLower.toList "video/".toList then VIDEO
    else if pyStartsWith mimeLower.toList "text/".toList then TEXT
    else if documentMimes.any (fun d => pyInStr d mimeLower) then DOCUMENT
    else if archiveMimes.any (fun d => pyInStr d mimeLower) then ARCHIVE
    else if codeExtensions.contains (pyLower (pathSuffix m.path)) then CODE
    else if pyStartsWith mimeLower.toList "application/".toList then BINARY
    else UNKNOWN

/-- Sample metadata of a Python source file whose mime resolved to
text/x-python (the fallback table of core/metadata.py maps .py there). -/
def mdPy : Metadata :=
  { path := ["/", "r", "x.py"], size := 10, tags := [MetaTag.FILE],
    times := [(MetaTime.MODIFIED, "2024-01-01T00:00:00")], ino := 7,
    owner := "u", permissions := "0o644 (rw-r--r--)", properties := [],
    mime := some "text/x-python" }

/-- Deduplicate a list of strings keeping the first occurrence of each,
the insertion order that Python dict and set construction preserves. -/
def dedupKeepFirst : List String → List String
  | [] => []
  | p :: rest => p :: (dedupKeepFirst rest).filter (fun q => !(q == p))

/-- SnapshotFile dataclass of services/snapshot.py. -/
structure SnapshotFile where
  path : String
  size : Int
  sha256 : Option String
  mtime : Option String
deriving DecidableEq

/-- Snapshot dataclass of services/snapshot.py. -/
structure Snapshot where
  snapshot_id : String
  scan_id : String
  label : String
  path : String
  created_at : String
  file_count : Nat
  total_size : Int
  files : List SnapshotFile
  notes : String
deriving DecidableEq

/-- DiffEntry dataclass of services/snapshot.py. -/
structure DiffEntry where
  change : String
  path : String
  old_path : Option String
  old_size : Option Int
  new_size : Option Int
  size_delta : Option Int
deriving DecidableEq

/-- SnapshotDiff dataclass of services/snapshot.py (the four entry lists
plus the identifying fields of the two snapshots). -/
structure SnapshotDiff where
  snapshot_a_id : String
  snapshot_b_id : String
  snapshot_a_label : String
  snapshot_b_label : String
  added : List DiffEntry
  removed : List DiffEntry
  modified : List DiffEntry
  renamed : List DiffEntry
deriving DecidableEq

/-- Placeholder SnapshotFile for total dictionary lookup; every lookup the
diff code performs is at a key known to be present. -/
def defaultSF : SnapshotFile := { path := "", size := 0, sha256 := none, mtime := none }

/-- The dictionary comprehension of diff: path mapped to file, a later file
with the same path overriding an earlier one. -/
def mapGet (fs : List SnapshotFile) (p : String) : SnapshotFile :=
  (fs.foldl (fun acc f => if f.path == p then some f else acc) none).getD defaultSF

/-- Key set of that dictionary, in first-insertion order. -/
def pathsList (fs : List SnapshotFile) : List String := dedupKeepFirst (fs.map (fun f => f.path))

/-- Append a value to the list held at a key of an association list,
creating the key at the end when absent, as dict.setdefault plus append. -/
def assocAppend : List (String × List String) → String → String → List (String × List String)
  | [], k, v => [(k, [v])]
  | (h, vs) :: rest, k, v =>
      if h == k then (h, vs ++ [v]) :: rest else (h, vs) :: assocAppend rest k v

/-- Lookup in an association list from strings to path lists. -/
def assocFind : List (String × List String) → String → Option (List String)
  | [], _ => none
  | (h, vs) :: rest, k => if h == k then some vs else assocFind rest k

/-- The sha_to_b map of diff: content hash to the list of paths of the
second snapshot carrying it, restricted to truthy hashes, keys in first
insertion order and path lists in file order. -/
def shaToB (fs : List SnapshotFile) : List (String × List String) :=
  fs.foldl (fun acc f =>
    match f.sha256 with
    | some s => if !(s == "") then assocAppend acc s f.path else acc
    | none => acc) []

/-- Paths of the first snapshot absent from the second (the loop domain of
the removed-or-renamed pass), in first-insertion order. -/
def pathsAminusB (a b : Snapshot) : List String :=
  (pathsList a.files).filter (fun p => !((b.files.map (fun f => f.path)).contains p))

/-- Paths of the second snapshot absent from the first. -/
def pathsBminusA (a b : Snapshot) : List String :=
  (pathsList b.files).filter (fun p => !((a.files.map (fun f => f.path)).contains p))

/-- Paths present in both snapshots, in first-insertion order of the first. -/
def pathsAinterB (a b : Snapshot) : List String :=
  (pathsList a.files).filter (fun p => (b.files.map (fun f => f.path)).contains p)

/-- Rename candidates the diff code computes for a path of A missing from
B: the paths of B carrying the same truthy hash, filtered only by not lying
in A.  The filter does not consult the consumed set matched_new_paths. -/
def renCand (a b : Snapshot) (p : String) : List String :=
  let fa := mapGet a.files p
  match fa.sha256 with
  | some h =>
      if !(h == "") then
        match assocFind (shaToB b.files) h with
        | some ps => ps.filter (fun q => !((a.files.map (fun f => f.path)).contains q))
        | none => []
      else []
  | none => []

/-- The renamed DiffEntry the loop emits for an old path p whose chosen
candidate is q. -/
def renEntryFor (a b : Snapshot) (p q : String) : DiffEntry :=
  { change := "renamed", path := q, old_path := some p,
    old_size := some (mapGet a.files p).size, new_size := some (mapGet b.files q).size,
    size_delta := some ((mapGet b.files q).size - (mapGet a.files p).size) }

/-- The removed DiffEntry the loop emits for a path p without a rename
candidate. -/
def remEntryFor (a : Snapshot) (p : String) : DiffEntry :=
  { change := "removed", path := p, old_path := none,
    old_size := some (mapGet a.files p).size, new_size := none, size_delta := none }

/-- One iteration of the removed-or-renamed loop of diff, threading the
renamed list, the removed list and the consumed set matched_new_paths.
When a candidate list is nonempty its first element is chosen and recorded
as consumed; otherwise a removed entry is emitted. -/
def renameStep (a b : Snapshot)
    (st : List DiffEntry × List DiffEntry × List String) (p : String) :
    List DiffEntry × List DiffEntry × List String :=
  match renCand a b p with
  | q :: _ => (st.1 ++ [renEntryFor a b p q], st.2.1, st.2.2 ++ [q])
  | [] => (st.1, st.2.1 ++ [remEntryFor a p], st.2.2)

/-- The removed-or-renamed pass of diff over all paths of A missing from B. -/
def diffRR (a b : Snapshot) : List DiffEntry × List DiffEntry × List String :=
  (pathsAminusB a b).foldl (renameStep a b) ([], [], [])

/-- The changed test of the modified pass of diff: hash mismatch when both
hashes are truthy, else size mismatch, else mtime mismatch when both mtimes
are truthy. -/
def modChanged (fa fb : SnapshotFile) : Bool :=
  if pyTruthyStr fa.sha256 && pyTruthyStr fb.sha256 && !(fa.sha256 == fb.sha256) then true
  else if !(fa.size == fb.size) then true
  else if pyTruthyStr fa.mtime && pyTruthyStr fb.mtime && !(fa.mtime == fb.mtime) then true
  else false

/-- SnapshotManager.diff of services/snapshot.py: the removed-or-renamed
pass, then the added pass skipping consumed paths, then the modified pass. -/
def SnapshotManager.diff (a b : Snapshot) : SnapshotDiff :=
  let rr := diffRR a b
  let added := ((pathsBminusA a b).filter (fun p => !(rr.2.2.contains p))).map (fun p =>
    let fb := mapGet b.files p
    { change := "added", path := p, old_path := none, old_size := none,
      new_size := some fb.size, size_delta := some fb.size })
  let modified := (pathsAinterB a b).filterMap (fun p =>
    let fa := mapGet a.files p
    let fb := mapGet b.files p
    if modChanged fa fb then
      some { change := "modified", path := p, old_path := none,
             old_size := some fa.size, new_size := some fb.size,
             size_delta := some (fb.size - fa.size) }
    else none)
  { snapshot_a_id := a.snapshot_id, snapshot_b_id := b.snapshot_id,
    snapshot_a_label := a.label, snapshot_b_label := b.label,
    added := added, removed := rr.2.1, modified := modified, renamed := rr.1 }

/-- First snapshot of the disjointness counterexample: two files with the
same content hash, both absent from the second snapshot. -/
def exA5 : Snapshot :=
  { snapshot_id := "a", scan_id := "s", label := "A", path := "/r",
    created_at := "t0", file_count := 2, total_size := 3,
    files := [{ path := "p1", size := 1, sha256 := some "H", mtime := none },
              { path := "p2", size := 2, sha256 := some "H", mtime := none }],
    notes := "" }

/-- Second snapshot of the disjointness counterexample: one file carrying
that hash at a new path. -/
def exB5 : Snapshot :=
  { snapshot_id := "b", scan_id := "s", label := "B", path := "/r",
    created_at := "t1", file_count := 1, total_size := 1,
    files := [{ path := "q", size := 1, sha256 := some "H", mtime := none }],
    notes := "" }

/-- FileNode dataclass of core/filesystem.py: path, metadata and the hash
kind to hash value mapping. -/
structure FileNode where
  path : List String
  metadata : Metadata
  hashes : List (String × String)
deriving DecidableEq

/-- FileNode.size property: the metadata size. -/
def FileNode.size (f : FileNode) : Nat := f.metadata.size

/-- Fuel-driven binary popcount; the fuel argument bounds the recursion
depth and n itself always suffices since halving reaches zero within n
steps. -/
def popcountAux : Nat → Nat → Nat
  | 0, _ => 0
  | _, 0 => 0
  | fuel + 1, n + 1 => (n + 1) % 2 + popcountAux fuel ((n + 1) / 2)

/-- Number of one bits of a natural number. -/
def popcount (n : Nat) : Nat := popcountAux n n

/-- hamming_distance of services/hash.py: the popcount of the xor of the
two integer hashes. -/
def hamming_distance (h1 h2 : Nat) : Nat := popcount (h1 ^^^ h2)

/-- DuplicateGroup dataclass of services/duplicate.py. -/
structure DuplicateGroup where
  group_id : String
  files : List FileNode
  duplicate_type : String
  total_size : Nat
  wastage : Nat
  representative : Option FileNode
deriving DecidableEq

/-- Minimum of a list of sizes, Python min over a nonempty list. -/
def minNat : List Nat → Nat
  | [] => 0
  | x :: xs => xs.foldl Nat.min x

/-- DuplicateGroup.add_file of services/duplicate.py: append the file,
grow the total size, and recompute the wastage once the group has more
than one member. -/
def DuplicateGroup.add_file (g : DuplicateGroup) (f : FileNode) : DuplicateGroup :=
  let files := g.files ++ [f]
  let total := g.total_size + f.size
  let wast := if 1 < files.length then total - minNat (files.map FileNode.size) else g.wastage
  { g with files := files, total_size := total, wastage := wast }

/-- Python attribute access metadata.time as it executes against the
Metadata dataclass of core/metadata.py: that frozen slots dataclass
declares exactly the attributes path, size, tags, times, ino, owner,
permissions, properties and mime, so reading the absent attribute time
raises AttributeError.  The timestamps live under the attribute named
times, keyed by the MetaTime enum rather than by plain strings. -/
def Metadata.time_attr (_ : Metadata) : Except String (List (String × String)) :=
  Except.error "AttributeError: Metadata object has no attribute time"

/-- Python dict.get with a default. -/
def pyDictGet (d : List (String × String)) (k dflt : String) : String :=
  match d.find? (fun kv => kv.1 == k) with
  | some kv => kv.2
  | none => dflt

/-- Python max over a nonempty keyed list: keeps the first element whose
key is maximal, replacing only on a strictly greater key. -/
def pyMaxByKey (h : FileNode × String) (rest : List (FileNode × String)) : FileNode :=
  (rest.foldl (fun best x => if best.2 < x.2 then x else best) h).1

/-- DuplicateGroup.set_representative of services/duplicate.py: an empty
group returns unchanged; otherwise the code evaluates the key function
lambda f: f.metadata.time.get(MODIFIED, empty) on the members, and the
first such attribute access raises AttributeError (see Metadata.time_attr),
so the whole call raises before any representative is stored. -/
def DuplicateGroup.set_representative (g : DuplicateGroup) : Except String DuplicateGroup :=
  match g.files with
  | [] => Except.ok g
  | f :: rest => do
      let kf ← f.metadata.time_attr
      let keyed ← rest.mapM (fun x =>
        (x.metadata.time_attr).map (fun t => (x, pyDictGet t "MODIFIED" "")))
      let rep := some (pyMaxByKey (f, pyDictGet kf "MODIFIED" "") keyed)
      Except.ok { g with representative := rep }

/-- Inner loop of detect_near_duplicates over the tail of the hash list:
skip hashes already visited, collect each unvisited hash within the
threshold and mark it visited at once.  Returns the collected hashes and
the updated visited set. -/
def nearCollect (thr p : Nat) : List Nat → List Nat → List Nat × List Nat
  | [], visited => ([], visited)
  | q :: rest, visited =>
      if visited.contains q then nearCollect thr p rest visited
      else if hamming_distance p q ≤ thr then
        let rec_result := nearCollect thr p rest (visited ++ [q])
        (q :: rec_result.1, rec_result.2)
      else nearCollect thr p rest visited

/-- Outer loop of detect_near_duplicates: for each unvisited hash, collect
its unvisited neighbours within the threshold; a cluster of size at least
two is emitted and its seed marked visited. -/
def nearGroupsGo (thr : Nat) : List Nat → List Nat → List (List Nat)
  | [], _ => []
  | p :: rest, visited =>
      if visited.contains p then nearGroupsGo thr rest visited
      else
        let col := nearCollect thr p rest visited
        let similar := p :: col.1
        if 1 < similar.length then similar :: nearGroupsGo thr rest (col.2 ++ [p])
        else nearGroupsGo thr rest col.2

/-- The greedy single-linkage pass of detect_near_duplicates over the hash
sequence it iterates, which is list(self dot _phash_index dot keys()): the
keys in index insertion order, not sorted. -/
def nearClusters (thr : Nat) (phashes : List Nat) : List (List Nat) :=
  nearGroupsGo thr phashes []

/-- Lookup of the file list indexed under a perceptual hash. -/
def phashIndexFind (index : List (Nat × List FileNode)) (h : Nat) : List FileNode :=
  match index.find? (fun kv => kv.1 == h) with
  | some kv => kv.2
  | none => []

/-- DuplicateDetector add of one file under its perceptual hash into
_phash_index: append to the list at the key, creating the key at the end
when absent (defaultdict insertion order). -/
def phashIndexAdd (index : List (Nat × List FileNode)) (h : Nat) (f : FileNode) :
    List (Nat × List FileNode) :=
  match index with
  | [] => [(h, [f])]
  | (k, fs) :: rest =>
      if k == h then (k, fs ++ [f]) :: rest else (k, fs) :: phashIndexAdd rest h f

/-- detect_near_duplicates of services/duplicate.py: iterate the index
keys in insertion order through the greedy pass, and for each emitted
cluster build a DuplicateGroup from all files indexed under its hashes and
call set_representative on it; the first such call raises (see
DuplicateGroup.set_representative), so the whole detection raises as soon
as any group is emitted. -/
def detect_near_duplicates (index : List (Nat × List FileNode)) (thr : Nat) :
    Except String (List (String × DuplicateGroup)) :=
  let phashes := index.map (fun kv => kv.1)
  ((nearClusters thr phashes).enum.mapM (fun ci =>
    let g0 : DuplicateGroup :=
      { group_id := "near_" ++ toString ci.1, duplicate_type := "near",
        files := [], total_size := 0, wastage := 0, representative := none }
    let g := ci.2.foldl (fun g h => (phashIndexFind index h).foldl DuplicateGroup.add_file g) g0
    (g.set_representative).map (fun gr => (gr.group_id, gr))))

/-- Reduction modulo two to the thirty-two, the word size of SHA-256. -/
def w32 (n : Nat) : Nat := n % 4294967296

/-- Right rotation of a 32-bit word. -/
def rotr32 (k x : Nat) : Nat := w32 ((x >>> k) ||| (x <<< (32 - k)))

/-- Upper-case sigma zero of FIPS 180-4. -/
def bigS0 (x : Nat) : Nat := rotr32 2 x ^^^ rotr32 13 x ^^^ rotr32 22 x

/-- Upper-case sigma one of FIPS 180-4. -/
def bigS1 (x : Nat) : Nat := rotr32 6 x ^^^ rotr32 11 x ^^^ rotr32 25 x

/-- Lower-case sigma zero of FIPS 180-4. -/
def smallS0 (x : Nat) : Nat := rotr32 7 x ^^^ rotr32 18 x ^^^ (x >>> 3)

/-- Lower-case sigma one of FIPS 180-4. -/
def smallS1 (x : Nat) : Nat := rotr32 17 x ^^^ rotr32 19 x ^^^ (x >>> 10)

/-- Round constants of SHA-256, the fractional parts of the cube roots of
the first sixty-four primes, written in decimal. -/
def sha256K : List Nat :=
  [1116352408, 1899447441, 3049323471, 3921009573, 961987163,
   1508970993, 2453635748, 2870763221, 3624381080, 310598401,
   607225278, 1426881987, 1925078388, 2162078206, 2614888103,
   3248222580, 3835390401, 4022224774, 264347078, 604807628,
   770255983, 1249150122, 1555081692, 1996064986, 2554220882,
   2821834349, 2952996808, 3210313671, 3336571891, 3584528711,
   113926993, 338241895, 666307205, 773529912, 1294757372,
   1396182291, 1695183700, 1986661051, 2177026350, 2456956037,
   2730485921, 2820302411, 3259730800, 3345764771, 3516065817,
   3600352804, 4094571909, 275423344, 430227734, 506948616,
   659060556, 883997877, 958139571, 1322822218, 1537002063,
   1747873779, 1955562222, 2024104815, 2227730452, 2361852424,
   2428436474, 2756734187, 3204031479, 3329325298]

/-- Initial hash value of SHA-256, written in decimal. -/
def sha256H0 : List Nat :=
  [1779033703, 3144134277, 1013904242, 2773480762,
   1359893119, 2600822924, 528734635, 1541459225]

/-- Big-endian eight-byte encoding of a length in bits. -/
def be64 (n : Nat) : List Nat :=
  [n >>> 56 &&& 255, n >>> 48 &&& 255, n >>> 40 &&& 255, n >>> 32 &&& 255,
   n >>> 24 &&& 255, n >>> 16 &&& 255, n >>> 8 &&& 255, n &&& 255]

/-- SHA-256 padding: the byte 128, zeros to 56 modulo 64, then the bit
length big-endian. -/
def padMessage (msg : List Nat) : List Nat :=
  let L := msg.length
  let zeros := (64 + 56 - (L + 1) % 64) % 64
  msg ++ [128] ++ List.replicate zeros 0 ++ be64 (8 * L)

/-- Split into 64-byte blocks; the fuel argument equals the input length
and bounds the recursion. -/
def toBlocksAux : Nat → List Nat → List (List Nat)
  | 0, _ => []
  | _, [] => []
  | fuel + 1, b :: bs => (b :: bs).take 64 :: toBlocksAux fuel ((b :: bs).drop 64)

/-- Split a byte list into 64-byte blocks. -/
def toBlocks (bs : List Nat) : List (List Nat) := toBlocksAux bs.length bs

/-- The sixteen big-endian words of a 64-byte block. -/
def blockWords (b : List Nat) : List Nat :=
  (List.range 16).map (fun i =>
    (b.getD (4 * i) 0 <<< 24) ||| (b.getD (4 * i + 1) 0 <<< 16) |||
    (b.getD (4 * i + 2) 0 <<< 8) ||| b.getD (4 * i + 3) 0)

/-- Message schedule: extend sixteen words to sixty-four. -/
def sha256Schedule (ws : List Nat) : List Nat :=
  (List.range 48).foldl (fun w _ =>
    let n := w.length
    w ++ [w32 (smallS1 (w.getD (n - 2) 0) + w.getD (n - 7) 0 +
               smallS0 (w.getD (n - 15) 0) + w.getD (n - 16) 0)]) ws

/-- One round of the SHA-256 compression over the working variables held as
an eight-element list. -/
def sha256Round (st : List Nat) (kw : Nat × Nat) : List Nat :=
  let a := st.getD 0 0
  let b := st.getD 1 0
  let c := st.getD 2 0
  let d := st.getD 3 0
  let e := st.getD 4 0
  let f := st.getD 5 0
  let g := st.getD 6 0
  let h := st.getD 7 0
  let ch := (e &&& f) ^^^ ((e ^^^ 4294967295) &&& g)
  let maj := (a &&& b) ^^^ (a &&& c) ^^^ (b &&& c)
  let t1 := w32 (h + bigS1 e + ch + kw.1 + kw.2)
  let t2 := w32 (bigS0 a + maj)
  [w32 (t1 + t2), a, b, c, w32 (d + t1), e, f, g]

/-- Compression of one block into the running hash words. -/
def sha256Compress (hw : List Nat) (block : List Nat) : List Nat :=
  let w := sha256Schedule (blockWords block)
  let st := (sha256K.zip w).foldl sha256Round hw
  (hw.zip st).map (fun p => w32 (p.1 + p.2))

/-- SHA-256 of a byte list as eight hash words. -/
def sha256Words (msg : List Nat) : List Nat :=
  (toBlocks (padMessage msg)).foldl sha256Compress sha256H0

/-- Big-endian bytes of the digest words; the mask keeps every byte below
256. -/
def sha256Bytes (msg : List Nat) : List Nat :=
  ((sha256Words msg).map (fun w =>
    [w >>> 24 &&& 255, w >>> 16 &&& 255, w >>> 8 &&& 255, w &&& 255])).flatten

/-- The sixteen lowercase hexadecimal digit characters. -/
def hexDigits : List Char := "0123456789abcdef".toList

/-- Hexadecimal digit character of a value below sixteen. -/
def hexChar (n : Nat) : Char := hexDigits.getD n 'x'

/-- Two lowercase hexadecimal characters of one byte. -/
def byteToHexChars (b : Nat) : List Char := [hexChar (b / 16), hexChar (b % 16)]

/-- Lowercase hexadecimal SHA-256 digest of a byte list, the value
hashlib.sha256(data).hexdigest() returns. -/
def sha256hex (msg : List Nat) : String := ⟨((sha256Bytes msg).map byteToHexChars).flatten⟩

/-- Bool test that every character of a string is a lowercase hexadecimal
digit. -/
def isLowerHex (s : String) : Bool := s.toList.all (fun c => hexDigits.contains c)

/-- Incremental state of hashlib.sha256: by the documented semantics of
hashlib, feeding chunks through update and asking for hexdigest equals the
one-shot digest of the concatenation of the chunks, so the state is the
bytes fed so far. -/
structure Sha256Hasher where
  acc : List Nat
deriving DecidableEq

/-- hashlib update: append the chunk to the bytes fed so far. -/
def Sha256Hasher.update (h : Sha256Hasher) (chunk : List Nat) : Sha256Hasher :=
  { acc := h.acc ++ chunk }

/-- hashlib hexdigest: lowercase hexadecimal SHA-256 of the bytes fed. -/
def Sha256Hasher.hexdigest (h : Sha256Hasher) : String := sha256hex h.acc

/-- SHA256_CHUNK_SIZE of config.py. -/
def SHA256_CHUNK_SIZE : Nat := 8192

/-- The chunk sequence iter(lambda: f.read(SHA256_CHUNK_SIZE), b65) yields
over the file bytes; the fuel argument equals the input length and bounds
the recursion, since every step consumes at least one byte. -/
def readChunksAux : Nat → List Nat → List (List Nat)
  | 0, _ => []
  | _, [] => []
  | fuel + 1, b :: bs =>
      (b :: bs).take SHA256_CHUNK_SIZE :: readChunksAux fuel ((b :: bs).drop SHA256_CHUNK_SIZE)

/-- Fixed-size chunked read of a byte list. -/
def readChunks (bs : List Nat) : List (List Nat) := readChunksAux bs.length bs

/-- compute_sha256 of services/hash.py.  The filesystem is a map from a
path to the byte contents of the file there, with none standing for any
failure of open or read; the try block catches every exception and returns
None, and on success the file is streamed in SHA256_CHUNK_SIZE chunks
through the hasher. -/
def compute_sha256 (fs : String → Option (List Nat)) (p : String) : Option String :=
  match fs p with
  | none => none
  | some bs => some (((readChunks bs).foldl Sha256Hasher.update { acc := [] }).hexdigest)

/-- Append a value to the list held at a key of an association list with
arbitrary key and value types, creating the key at the end when absent. -/
def alistAppend {κ α : Type} [BEq κ] : List (κ × List α) → κ → α → List (κ × List α)
  | [], k, v => [(k, [v])]
  | (h, vs) :: rest, k, v =>
      if h == k then (h, vs ++ [v]) :: rest else (h, vs) :: alistAppend rest k v

/-- Total lookup in such an association list, empty when the key is
absent. -/
def alistGet {κ α : Type} [BEq κ] (l : List (κ × List α)) (k : κ) : List α :=
  match l.find? (fun kv => kv.1 == k) with
  | some kv => kv.2
  | none => []

/-- State of a FilesystemTree of core/filesystem.py 
during tree building.  The methods _chain_path and attach_file reach every
DirNode object exclusively through the dictionary _path_index, which keys
each object by its path and in which each object is created at most once,
so the object graph is represented by its index: the insertion-ordered key
list dirs, and per key the metadata, the subdirectory path list and the
file list of the DirNode stored there.  rootDir is the path of self.root.
The derived _stats_cache is not modelled. -/
structure TreeState where
  root_path : List String
  rootDir : Option (List String)
  dirs : List (List String)
  dirMeta : List (List String × List Metadata)
  subdirsAt : List (List String × List (List String))
  filesAt : List (List String × List FileNode)
deriving DecidableEq

/-- A FilesystemTree as the constructor leaves it: the given root path, no
root node, an empty index. -/
def freshTree (root : List String) : TreeState :=
  { root_path := root, rootDir := none, dirs := [], dirMeta := [],
    subdirsAt := [], filesAt := [] }

/-- Files held by the DirNode at a directory path. -/
def filesAtState (t : TreeState) (d : List String) : List FileNode :=
  alistGet t.filesAt d

/-- Subdirectory paths held by the DirNode at a directory path. -/
def subdirsAtState (t : TreeState) (d : List String) : List (List String) :=
  alistGet t.subdirsAt d

/-- Loop body of _chain_path of core/filesystem.py over the remaining path
parts.  done holds the components consumed so far, cur the path of the
current node, none before any node is reached.  An existing prefix is
reused; a missing one gets a fresh DirNode whose metadata the oracle md
supplies, standing for Metadata.extract or, on FileNotFoundError or
PermissionError, the dummy directory metadata; the node is linked under
the current node, or made the root, with root_path overwritten, when there
is none. -/
def chainGo (md : List String → Metadata) :
    TreeState → Option (List String) → List String → List String → TreeState
  | t, _, _, [] => t
  | t, cur, done, part :: rest =>
      let next := done ++ [part]
      if t.dirs.contains next then chainGo md t (some next) next rest
      else
        let t1 := { t with dirs := t.dirs ++ [next],
                           dirMeta := alistAppend t.dirMeta next (md next) }
        let t2 := match cur with
          | some c => { t1 with subdirsAt := alistAppend t1.subdirsAt c next }
          | none => { t1 with rootDir := some next, root_path := next }
        chainGo md t2 (some next) next rest

/-- _chain_path of core/filesystem.py: when the parent of the file path is
already indexed it is returned at once, otherwise the loop above walks all
parts of the parent path from the first component, so from the filesystem
root, reusing indexed prefixes and creating the missing ones.  The method
resolves its argument first; paths are taken as already absolute and
normalised, so resolution is the identity here.  The returned parent is
always the full parent path. -/
def chain_path (md : List String → Metadata) (t : TreeState) (file_path : List String) :
    TreeState × List String :=
  let parent := file_path.dropLast
  if t.dirs.contains parent then (t, parent)
  else (chainGo md t none [] parent, parent)

/-- attach_file of core/filesystem.py: build the FileNode, ensure the
parent chain exists, and append the node to the parent file list.  The
append is unconditional; no existing node at the same path is removed. -/
def TreeState.attach_file (md : List String → Metadata) (t : TreeState)
    (path : List String) (metadata : Metadata) (hashes : List (String × String)) : TreeState :=
  let node : FileNode := { path := path, metadata := metadata, hashes := hashes }
  let cp := chain_path md t path
  { cp.1 with filesAt := alistAppend cp.1.filesAt cp.2 node }

/-- The dummy directory metadata _chain_path builds for inaccessible
directories; the claims below never depend on metadata contents, and this
value also serves as the extraction oracle in concrete examples. -/
def dummyDirMeta (p : List String) : Metadata :=
  { path := p, size := 0, tags := [MetaTag.DIRECTORY],
    times := [(MetaTime.CREATED, "unknown"), (MetaTime.ACCESSED, "unknown"),
              (MetaTime.MODIFIED, "unknown")],
    ino := 0, owner := "unknown", permissions := "unknown", properties := [],
    mime := none }

/-- DirNode of core/filesystem.py as a nested tree, the view on which
merge and _merge_dirs operate. -/
inductive DirNode where
  | mk : List String → Metadata → List FileNode → List DirNode → DirNode

/-- Path of a DirNode. -/
def DirNode.path : DirNode → List String
  | .mk p _ _ _ => p

/-- Metadata of a DirNode. -/
def DirNode.metadata : DirNode → Metadata
  | .mk _ m _ _ => m

/-- Files of a DirNode. -/
def DirNode.files : DirNode → List FileNode
  | .mk _ _ fs _ => fs

/-- Subdirectories of a DirNode. -/
def DirNode.subdirs : DirNode → List DirNode
  | .mk _ _ _ ss => ss

mutual
/-- _merge_dirs of core/filesystem.py.  Files: the target keeps all its
files, and each source file is appended only when its path is not among
the paths the target files had before the loop.  Subdirectories: the dict
existing_subdirs maps each target subdirectory path to the last node
carrying it, a source subdirectory with an indexed path is merged in place
into that node, and the others are appended. -/
def mergeDirs : DirNode → DirNode → DirNode
  | .mk tp tm tf ts, .mk _ _ sf ss =>
      DirNode.mk tp tm
        (tf ++ sf.filter (fun f => !((tf.map (fun x => x.path)).contains f.path)))
        (mergeSubdirs (ts.map DirNode.path) ts ss)

/-- Loop over the source subdirectories against the original target
subdirectory path set. -/
def mergeSubdirs (orig : List (List String)) (acc : List DirNode) :
    List DirNode → List DirNode
  | [] => acc
  | sd :: rest =>
      if orig.contains sd.path then mergeSubdirs orig (mergeOne acc sd) rest
      else mergeSubdirs orig (acc ++ [sd]) rest

/-- In-place merge into the last element of the accumulator that carries
the path of the source subdirectory, the object the dict existing_subdirs
holds for it. -/
def mergeOne (acc : List DirNode) (sd : DirNode) : List DirNode :=
  match (acc.enum.filter (fun q => q.2.path == sd.path)).getLast? with
  | some iq => acc.set iq.1 (mergeDirs iq.2 sd)
  | none => acc
end

/-- FilesystemTree of core/filesystem.py seen as root path plus optional
root node, the view on which merge operates; _rebuild_index and the stats
cache recompute derived state and are not modelled. -/
structure FilesystemTree where
  root_path : List String
  root : Option DirNode

/-- merge of core/filesystem.py: an empty source leaves the target; an
empty target adopts the source root and root path; otherwise _merge_dirs
runs on the two roots.  The method performs no check that the two root
paths agree. -/
def FilesystemTree.merge (t other : FilesystemTree) : FilesystemTree :=
  match other.root with
  | none => t
  | some oroot =>
      match t.root with
      | none => { root_path := other.root_path, root := some oroot }
      | some troot => { t with root := some (mergeDirs troot oroot) }

/-- HashResult dataclass of services/hashing.py: path, cryptographic hash,
algorithm name, file size, and the optional perceptual hash mapping. -/
structure HashResult where
  file_path : String
  cryptographic_hash : String
  algorithm : String
  file_size : Nat
  perceptual_hashes : Option (List (String × String))
deriving DecidableEq

/-- Worker._process_task of core/worker.py.  After metadata extraction and
hashing it prepares the local dictionary hashes, holding the algorithm
name, the cryptographic hash, and, when the perceptual mapping is truthy,
one perceptual_ prefixed entry per perceptual hash; but the call into
attach_file passes the literal empty dict in place of that variable (the
source line reads an empty brace pair annotated with the word hashes in a
trailing comment), so the attached FileNode carries no hashes.  The pair
returned here is the tree after the attach and the prepared local
dictionary. -/
def Worker.process_task (md : List String → Metadata) (t : TreeState)
    (file_path : List String) (metadata : Metadata) (hr : HashResult) :
    TreeState × List (String × String) :=
  let perceptual : List (String × String) :=
    match hr.perceptual_hashes with
    | some ps => if ps.isEmpty then [] else ps.map (fun kv => ("perceptual_" ++ kv.1, kv.2))
    | none => []
  let hashes := [("algorithm", hr.algorithm), ("cryptographic", hr.cryptographic_hash)] ++ perceptual
  (t.attach_file md file_path metadata [], hashes)

/-- Tree obtained by attaching one file below the scan root r of a fresh
tree, the input of the root-prefix counterexample. -/
def exT2 : TreeState :=
  (freshTree ["/", "r"]).attach_file dummyDirMeta ["/", "r", "a", "f.txt"]
    (dummyDirMeta ["/", "r", "a", "f.txt"]) []

/-- Tree obtained by attaching the same path twice with different hashes,
the input of the replacement counterexample. -/
def exT4 : TreeState :=
  ((freshTree ["/", "r"]).attach_file dummyDirMeta ["/", "r", "x"]
      (dummyDirMeta ["/", "r", "x"]) [("sha256", "aaaa")]).attach_file dummyDirMeta
    ["/", "r", "x"] (dummyDirMeta ["/", "r", "x"]) [("sha256", "bbbb")]

/-- Target-side FileNode of the merge counterexample. -/
def fA1 : FileNode :=
  { path := ["/", "r", "x"], metadata := dummyDirMeta ["/", "r", "x"],
    hashes := [("sha256", "aaaa")] }

/-- Source-side FileNode of the merge counterexample, same path, different
content hash. -/
def fB1 : FileNode :=
  { path := ["/", "r", "x"], metadata := dummyDirMeta ["/", "r", "x"],
    hashes := [("sha256", "bbbb")] }

/-- Target tree of the merge counterexample. -/
def tTree1 : FilesystemTree :=
  { root_path := ["/", "r"],
    root := some (DirNode.mk ["/", "r"] (dummyDirMeta ["/", "r"]) [fA1] []) }

/-- Source tree of the merge counterexample, rooted at the same path. -/
def sTree1 : FilesystemTree :=
  { root_path := ["/", "r"],
    root := some (DirNode.mk ["/", "r"] (dummyDirMeta ["/", "r"]) [fB1] []) }

/-- First snapshot of the rename-choice counterexample: one file p1 with
hash H. -/
def exA6 : Snapshot :=
  { snapshot_id := "a6", scan_id := "s", label := "A", path := "/r",
    created_at := "t0", file_count := 1, total_size := 1,
    files := [{ path := "p1", size := 1, sha256 := some "H", mtime := none }],
    notes := "" }

/-- Second snapshot of the rename-choice counterexample: the same hash at
the two new paths zz and aa, in that file order, with aa the
lexicographically smaller one. -/
def exB6 : Snapshot :=
  { snapshot_id := "b6", scan_id := "s", label := "B", path := "/r",
    created_at := "t1", file_count := 2, total_size := 2,
    files := [{ path := "zz", size := 1, sha256 := some "H", mtime := none },
              { path := "aa", size := 1, sha256 := some "H", mtime := none }],
    notes := "" }

/-- A member FileNode for the representative counterexample. -/
def exF8 : FileNode :=
  { path := ["/", "r", "a.txt"], metadata := dummyDirMeta ["/", "r", "a.txt"],
    hashes := [("sha256", "cccc")] }

/-- A nonempty duplicate group carrying ordinary Metadata, the failing
input of set_representative. -/
def exG8 : DuplicateGroup :=
  { group_id := "exact_cccc", files := [exF8], duplicate_type := "exact",
    total_size := 0, wastage := 0, representative := none }

/-- Indexed file under perceptual hash 0. -/
def exF0 : FileNode :=
  { path := ["/", "r", "i0.png"], metadata := dummyDirMeta ["/", "r", "i0.png"],
    hashes := [("phash", "0")] }

/-- Indexed file under perceptual hash 1. -/
def exF1 : FileNode :=
  { path := ["/", "r", "i1.png"], metadata := dummyDirMeta ["/", "r", "i1.png"],
    hashes := [("phash", "1")] }

/-- Indexed file under perceptual hash 3. -/
def exF3 : FileNode :=
  { path := ["/", "r", "i3.png"], metadata := dummyDirMeta ["/", "r", "i3.png"],
    hashes := [("phash", "3")] }

/-- Perceptual index built by adding the three files in the order 0, 1, 3. -/
def exIdx9a : List (Nat × List FileNode) :=
  phashIndexAdd (phashIndexAdd (phashIndexAdd [] 0 exF0) 1 exF1) 3 exF3

/-- Perceptual index over the same files added in the order 1, 0, 3. -/
def exIdx9b : List (Nat × List FileNode) :=
  phashIndexAdd (phashIndexAdd (phashIndexAdd [] 1 exF1) 0 exF0) 3 exF3





/-- Lexicographic comparison of two strings by their characters, the order
Python uses when comparing path strings. -/
def listLexLt : List Char → List Char → Bool
  | [], [] => false
  | [], _ :: _ => true
  | _ :: _, [] => false
  | a :: as, b :: bs => a < b || (a == b && listLexLt as bs)

/-- Lexicographic order on strings used to state lexicographically
smallest in the rename tie-break claim. -/
def pyStrLt (a b : String) : Bool := listLexLt a.toList b.toList

/-- All FileNodes stored anywhere in a tree state. -/
def allFileNodes (t : TreeState) : List FileNode :=
  (t.filesAt.map (fun kv => kv.2)).flatten

/-- The single attach call of the root-prefix example, as a call list for
the attach-fold theorem. -/
def exCalls2 : List (List String × Metadata × List (String × String)) :=
  [(["/", "r", "a", "f.txt"], dummyDirMeta ["/", "r", "a", "f.txt"], [])]

/-- Validation of the SHA-256 embedding against the FIPS test vector for
the empty message. -/
theorem sha256hex_vector_empty :
    sha256hex [] = "e3b0c44298fc1c149afbf4c8996fb92427ae41e4649b934ca495991b7852b855" := by decide

/-- Validation of the SHA-256 embedding against the FIPS test vector for
the three-byte message abc. -/
theorem sha256hex_vector_abc :
    sha256hex [97, 98, 99] = "ba7816bf8f01cfea414140de5dae2223b00361a396177a9cb410ff61f20015ad" := by decide

/-- Evaluation check of the attach embedding on a fresh tree: the parent
chain is created from the filesystem root component downwards. -/
theorem attach_eval_check :
    (freshTree ["/", "r"]).attach_file dummyDirMeta ["/", "r", "a", "f.txt"]
        (dummyDirMeta ["/", "r", "a", "f.txt"]) [] =
    { root_path := ["/"], rootDir := some ["/"],
      dirs := [["/"], ["/", "r"], ["/", "r", "a"]],
      dirMeta := [(["/"], [dummyDirMeta ["/"]]), (["/", "r"], [dummyDirMeta ["/", "r"]]),
                  (["/", "r", "a"], [dummyDirMeta ["/", "r", "a"]])],
      subdirsAt := [(["/"], [["/", "r"]]), (["/", "r"], [["/", "r", "a"]])],
      filesAt := [(["/", "r", "a"],
        [{ path := ["/", "r", "a", "f.txt"],
           metadata := dummyDirMeta ["/", "r", "a", "f.txt"], hashes := [] }])] } := by decide

/-- A character-list prefix check forces the head of the scanned list. -/
theorem listStartsWith_shape (a : Char) (as l : List Char)
    (h : listStartsWith (a :: as) l = true) : ∃ tl, l = a :: tl := by
  cases l with
  | nil => simp [listStartsWith] at h
  | cons b bs =>
      refine ⟨bs, ?_⟩
      simp [listStartsWith] at h
      rw [h.1]

/-- A character-list prefix check fails when the heads differ. -/
theorem listStartsWith_head_ne (a b : Char) (as tl : List Char)
    (hne : (a == b) = false) : listStartsWith (a :: as) (b :: tl) = false := by
  simp [listStartsWith, hne]

/-- C7 counterexample: the file x.py with mime text/x-python has its
extension in the code set, yet Metadata.filetype classifies it TEXT, not
CODE, because the text mime category is tested before the code extension
set. -/
theorem c7_counterexample :
    mdPy.filetype = FileType.TEXT ∧
    (FileType.TEXT == FileType.CODE) = false ∧
    codeExtensions.contains (pyLower (pathSuffix mdPy.path)) = true ∧
    mdPy.mime = some "text/x-python" := by decide

/-- C7 amended: Metadata.filetype tests the mime categories image, audio,
video, text before the document and archive mimes and before the code
extension set, so any non-directory metadata whose truthy mime lower-cases
to a string starting with text/ is classified TEXT regardless of its
extension. -/
theorem c7_text_mime_wins (m : Metadata) (s : String)
    (hm : m.mime = some s) (hs : (s == "") = false)
    (hd : m.tags.contains MetaTag.DIRECTORY = false)
    (ht : pyStartsWith (pyLower s).toList "text/".toList = true) :
    m.filetype = FileType.TEXT := by
  have ht' : listStartsWith ('t' :: "ext/".toList) (pyLower s).toList = true := ht
  obtain ⟨tl, htl⟩ := listStartsWith_shape _ _ _ ht'
  unfold Metadata.filetype
  rw [hd, hm]
  simp only [pyTruthyStr, hs, Option.getD_some, Bool.not_false, Bool.or_self, Bool.false_or]
  rw [if_neg (by simp)]
  have himg : pyStartsWith (pyLower s).toList "image/".toList = false := by
    show listStartsWith ('i' :: "mage/".toList) (pyLower s).toList = false
    rw [htl]; exact listStartsWith_head_ne _ _ _ _ (by decide)
  have haud : pyStartsWith (pyLower s).toList "audio/".toList = false := by
    show listStartsWith ('a' :: "udio/".toList) (pyLower s).toList = false
    rw [htl]; exact listStartsWith_head_ne _ _ _ _ (by decide)
  have hvid : pyStartsWith (pyLower s).toList "video/".toList = false := by
    show listStartsWith ('v' :: "ideo/".toList) (pyLower s).toList = false
    rw [htl]; exact listStartsWith_head_ne _ _ _ _ (by decide)
  rw [if_neg (by rw [himg]; exact Bool.false_ne_true),
      if_neg (by rw [haud]; exact Bool.false_ne_true),
      if_neg (by rw [hvid]; exact Bool.false_ne_true),
      if_pos ht]

/-- Witness for the amended C7 theorem at the concrete x.py metadata. -/
theorem c7_text_mime_wins_witness : mdPy.filetype = FileType.TEXT :=
  c7_text_mime_wins mdPy "text/x-python" (by decide) (by decide) (by decide) (by decide)

/-- C8: set_representative evaluates the key function on the members, and
the key function reads the attribute time that the Metadata dataclass does
not declare, so for every nonempty group of members carrying ordinary
Metadata the call raises AttributeError instead of selecting any
representative. -/
theorem c8_set_representative_raises (g : DuplicateGroup) (h : g.files ≠ []) :
    g.set_representative =
      Except.error "AttributeError: Metadata object has no attribute time" := by
  rcases g with ⟨gid, files, dt, ts, wa, rep⟩
  cases files with
  | nil => simp at h
  | cons f rest => rfl

/-- Witness for the C8 theorem: a concrete one-member group raises. -/
theorem c8_set_representative_raises_witness :
    exG8.set_representative =
      Except.error "AttributeError: Metadata object has no attribute time" :=
  c8_set_representative_raises exG8 (by decide)

/-- C5 counterexample: snapshot A holds p1 and p2 with the same content
hash H, snapshot B holds the single path q with hash H; diff emits two
renamed entries both pointing at q, because the candidate filter checks
only membership in A and never the consumed set, so the path q appears in
two entries of the diff. -/
theorem c5_counterexample :
    ((SnapshotManager.diff exA5 exB5).renamed.map (fun e => e.path)) = ["q", "q"] ∧
    ((SnapshotManager.diff exA5 exB5).renamed.map (fun e => e.old_path)) =
      [some "p1", some "p2"] ∧
    (SnapshotManager.diff exA5 exB5).added = [] ∧
    (SnapshotManager.diff exA5 exB5).removed = [] ∧
    (SnapshotManager.diff exA5 exB5).modified = [] := by decide

/-- C6 counterexample: the candidates for the removed path p1 are zz and
aa, in the file order of snapshot B; the code emits the rename to zz, the
first candidate in that order, although aa is the lexicographically
smallest candidate. -/
theorem c6_counterexample :
    ((SnapshotManager.diff exA6 exB6).renamed.map (fun e => e.path)) = ["zz"] ∧
    pyStrLt "aa" "zz" = true ∧
    ("aa" ∈ pathsBminusA exA6 exB6) ∧
    (mapGet exB6.files "aa").sha256 = some "H" ∧
    (mapGet exA6.files "p1").sha256 = some "H" ∧
    (((SnapshotManager.diff exA6 exB6).renamed.map (fun e => e.path)).contains "aa") =
      false := by decide

/-- C4 counterexample: attaching the same path twice leaves two FileNodes
with that path in the parent file list; nothing is replaced. -/
theorem c4_counterexample :
    (filesAtState exT4 ["/", "r"]).map (fun f => f.path) =
      [["/", "r", "x"], ["/", "r", "x"]] ∧
    (filesAtState exT4 ["/", "r"]).length = 2 ∧
    (filesAtState exT4 ["/", "r"]).map (fun f => f.hashes) =
      [[("sha256", "aaaa")], [("sha256", "bbbb")]] := by decide

/-- C2 counterexample: attaching one file below the scan root r creates
the ancestor DirNode at the filesystem root, whose path neither has the
scan root as a prefix nor equals it, and the root path of the tree is
overwritten to the filesystem root. -/
theorem c2_counterexample :
    exT2.dirs.contains ["/"] = true ∧
    List.isPrefixOf ["/", "r"] ["/"] = false ∧
    ((["/", "r"] : List String) == ["/"]) = false ∧
    exT2.root_path = ["/"] ∧
    exT2.rootDir = some ["/"] := by decide

/-- C9 counterexample: the same three indexed files added in the orders
0, 1, 3 and 1, 0, 3 give permuted indices, the greedy pass iterates the
keys in those insertion orders, and at threshold 1 the emitted clusters
differ in membership, so the near groups are not independent of the order
in which files were added. -/
theorem c9_counterexample :
    (exIdx9a.map (fun kv => kv.1)) = [0, 1, 3] ∧
    (exIdx9b.map (fun kv => kv.1)) = [1, 0, 3] ∧
    List.Perm exIdx9a exIdx9b ∧
    nearClusters 1 (exIdx9a.map (fun kv => kv.1)) = [[0, 1]] ∧
    nearClusters 1 (exIdx9b.map (fun kv => kv.1)) = [[1, 0, 3]] ∧
    (([[0, 1]] : List (List Nat)) == [[1, 0, 3]]) = false := by decide

/-- Appending at a key then reading that key yields the old list plus the
new value. -/
theorem alistGet_append {κ α : Type} [BEq κ] [LawfulBEq κ]
    (l : List (κ × List α)) (k : κ) (v : α) :
    alistGet (alistAppend l k v) k = alistGet l k ++ [v] := by
  induction l with
  | nil => simp [alistAppend, alistGet, List.find?]
  | cons h t ih =>
      obtain ⟨hk, hvs⟩ := h
      by_cases he : (hk == k) = true
      · simp [alistAppend, he, alistGet, List.find?]
      · simp only [Bool.not_eq_true] at he
        simp [alistAppend, he, alistGet, List.find?]
        exact ih

/-- The parent-chain walk never touches any file list. -/
theorem chainGo_filesAt (md : List String → Metadata) :
    ∀ (rest : List String) (t : TreeState) (cur : Option (List String))
      (done : List String), (chainGo md t cur done rest).filesAt = t.filesAt := by
  intro rest
  induction rest with
  | nil => intro t cur done; rfl
  | cons part tail ih =>
      intro t cur done
      simp only [chainGo]
      by_cases hc : (t.dirs.contains (done ++ [part])) = true
      · rw [if_pos hc, ih]
      · simp only [Bool.not_eq_true] at hc
        rw [if_neg (by rw [hc]; exact Bool.false_ne_true), ih]
        cases cur <;> rfl

/-- attach_file appends the new FileNode at the end of the parent file
list and leaves every file already there, including any carrying the same
path. -/
theorem attach_filesAt (md : List String → Metadata) (t : TreeState)
    (p : List String) (m : Metadata) (hs : List (String × String)) :
    filesAtState (t.attach_file md p m hs) p.dropLast =
      filesAtState t p.dropLast ++ [{ path := p, metadata := m, hashes := hs }] := by
  unfold TreeState.attach_file chain_path filesAtState
  by_cases hc : (t.dirs.contains p.dropLast) = true
  · rw [if_pos hc]
    exact alistGet_append _ _ _
  · simp only [Bool.not_eq_true] at hc
    rw [if_neg (by rw [hc]; exact Bool.false_ne_true)]
    show alistGet (alistAppend (chainGo md t none [] p.dropLast).filesAt p.dropLast _) p.dropLast = _
    rw [alistGet_append, chainGo_filesAt]

/-- C3: for every dequeued path, _process_task attaches a FileNode whose
hash mapping is empty, even though the locally prepared dictionary holds
the cryptographic hash and the algorithm; the prepared dictionary is
discarded and the literal empty dict is attached. -/
theorem c3_worker_drops_hashes (md : List String → Metadata) (t : TreeState)
    (p : List String) (m : Metadata) (hr : HashResult) :
    filesAtState (Worker.process_task md t p m hr).1 p.dropLast =
      filesAtState t p.dropLast ++ [{ path := p, metadata := m, hashes := [] }] ∧
    ("cryptographic", hr.cryptographic_hash) ∈ (Worker.process_task md t p m hr).2 ∧
    ("algorithm", hr.algorithm) ∈ (Worker.process_task md t p m hr).2 := by
  refine ⟨?_, ?_, ?_⟩
  · show filesAtState (t.attach_file md p m []) p.dropLast = _
    exact attach_filesAt md t p m []
  · simp [Worker.process_task]
  · simp [Worker.process_task]

/-- C4 amended: attach_file appends rather than replaces, so a second
attach at an existing path leaves two FileNodes with that path in the
parent; duplicates are only avoided across merge, where _merge_dirs drops
a source file whose path the target already holds, keeping the target
copy. -/
theorem c4_attach_appends_merge_dedups :
    (∀ (md : List String → Metadata) (t : TreeState) (p : List String)
       (m : Metadata) (hs : List (String × String)),
      filesAtState (t.attach_file md p m hs) p.dropLast =
        filesAtState t p.dropLast ++ [{ path := p, metadata := m, hashes := hs }]) ∧
    (∀ (td sd : DirNode),
      (mergeDirs td sd).files =
        td.files ++ sd.files.filter
          (fun f => !((td.files.map (fun x => x.path)).contains f.path))) := by
  refine ⟨fun md t p m hs => attach_filesAt md t p m hs, fun td sd => ?_⟩
  cases td with
  | mk tp tm tf ts =>
      cases sd with
      | mk sp sm sf ss => simp [mergeDirs, DirNode.files]

/-- C1 counterexample: both trees are rooted at the same path and hold a
file at the same path with different content hashes; the merged tree holds
exactly the target file, not the source file, as the docstring of merge
states: duplicates are handled by keeping existing nodes. -/
theorem c1_counterexample :
    ((tTree1.merge sTree1).root.map DirNode.files).getD [] = [fA1] ∧
    (fA1 == fB1) = false ∧
    fA1.path = fB1.path ∧
    tTree1.root_path = sTree1.root_path := by
  refine ⟨?_, by decide, by decide, by decide⟩
  show ((tTree1.merge sTree1).root.map DirNode.files).getD [] = [fA1]
  simp [tTree1, sTree1, FilesystemTree.merge, mergeDirs, mergeSubdirs,
        DirNode.files, DirNode.path, fA1, fB1]

/-- Source files dropped entirely at a colliding path: the filter of
_merge_dirs removes every source file whose path the target holds. -/
theorem mergeDirs_filter_drop (tf : List FileNode) (p : List String)
    (hp : (tf.map (fun x => x.path)).contains p = true) (sf : List FileNode) :
    (sf.filter (fun f => !((tf.map (fun x => x.path)).contains f.path))).filter
      (fun f => f.path == p) = [] := by
  induction sf with
  | nil => rfl
  | cons f rest ih =>
      cases hin : ((tf.map (fun x => x.path)).contains f.path) with
      | true =>
          rw [List.filter_cons, hin]
          simp only [Bool.not_true]
          rw [if_neg (by simp)]
          exact ih
      | false =>
          rw [List.filter_cons, hin]
          simp only [Bool.not_false]
          rw [if_pos trivial, List.filter_cons]
          have hfp : (f.path == p) = false := by
            cases hq : (f.path == p) with
            | false => rfl
            | true =>
                have he : f.path = p := eq_of_beq hq
                rw [he] at hin
                rw [hin] at hp
                exact absurd hp (by simp)
          rw [hfp]
          rw [if_neg (by simp)]
          exact ih

/-- C1 amended: when both trees have roots and a file path exists in both
root file lists, merge keeps exactly the target FileNodes at that path and
drops every source FileNode carrying it; the source file replaces nothing. -/
theorem c1_merge_keeps_target (t s : FilesystemTree) (rt rs : DirNode)
    (p : List String) (ht : t.root = some rt) (hs : s.root = some rs)
    (hpt : (rt.files.map (fun x => x.path)).contains p = true)
    (hps : (rs.files.map (fun x => x.path)).contains p = true) :
    (t.merge s).root = some (mergeDirs rt rs) ∧
    ((mergeDirs rt rs).files.filter (fun f => f.path == p)) =
      rt.files.filter (fun f => f.path == p) := by
  constructor
  · unfold FilesystemTree.merge
    rw [hs, ht]
  · cases rt with
    | mk tp tm tf ts =>
        cases rs with
        | mk sp sm sf ss =>
            have hpt' : (tf.map (fun x => x.path)).contains p = true := hpt
            have hfe : (mergeDirs (DirNode.mk tp tm tf ts) (DirNode.mk sp sm sf ss)).files =
                tf ++ sf.filter (fun f => !((tf.map (fun x => x.path)).contains f.path)) := by
              simp [mergeDirs, DirNode.files]
            rw [hfe, show (DirNode.mk tp tm tf ts).files = tf from rfl, List.filter_append,
               mergeDirs_filter_drop tf p hpt' sf, List.append_nil]

/-- Witness for the amended C1 theorem at the concrete pair of trees. -/
theorem c1_merge_keeps_target_witness :
    (tTree1.merge sTree1).root =
      some (mergeDirs (DirNode.mk ["/", "r"] (dummyDirMeta ["/", "r"]) [fA1] [])
        (DirNode.mk ["/", "r"] (dummyDirMeta ["/", "r"]) [fB1] [])) ∧
    ((mergeDirs (DirNode.mk ["/", "r"] (dummyDirMeta ["/", "r"]) [fA1] [])
        (DirNode.mk ["/", "r"] (dummyDirMeta ["/", "r"]) [fB1] [])).files.filter
      (fun f => f.path == ["/", "r", "x"])) =
      [fA1].filter (fun f => f.path == ["/", "r", "x"]) :=
  c1_merge_keeps_target tTree1 sTree1 _ _ ["/", "r", "x"] rfl rfl (by decide) (by decide)

/-- Folding hashlib updates over a chunk list accumulates the
concatenation of the chunks. -/
theorem updateFold_acc : ∀ (chunks : List (List Nat)) (h : Sha256Hasher),
    (chunks.foldl Sha256Hasher.update h).acc = h.acc ++ chunks.flatten := by
  intro chunks
  induction chunks with
  | nil => intro h; simp
  | cons c rest ih =>
      intro h
      show (rest.foldl Sha256Hasher.update (h.update c)).acc = h.acc ++ (c :: rest).flatten
      rw [ih, List.flatten_cons]
      show (h.acc ++ c) ++ rest.flatten = h.acc ++ (c ++ rest.flatten)
      rw [List.append_assoc]

/-- Concatenating the fixed-size chunks restores the byte list. -/
theorem readChunksAux_flatten : ∀ (fuel : Nat) (bs : List Nat), bs.length ≤ fuel →
    (readChunksAux fuel bs).flatten = bs := by
  intro fuel
  induction fuel with
  | zero =>
      intro bs h
      have hb : bs = [] := List.eq_nil_of_length_eq_zero (Nat.le_zero.mp h)
      rw [hb]; rfl
  | succ n ih =>
      intro bs h
      cases bs with
      | nil => rfl
      | cons b tl =>
          show ((b :: tl).take SHA256_CHUNK_SIZE ::
              readChunksAux n ((b :: tl).drop SHA256_CHUNK_SIZE)).flatten = b :: tl
          rw [List.flatten_cons, ih ((b :: tl).drop SHA256_CHUNK_SIZE) ?_,
              List.take_append_drop]
          rw [List.length_drop]
          simp only [List.length_cons] at h ⊢
          simp only [SHA256_CHUNK_SIZE]
          omega

/-- Every digest byte stays below 256 thanks to the byte mask. -/
theorem sha256Bytes_le (msg : List Nat) : ∀ b ∈ sha256Bytes msg, b ≤ 255 := by
  intro b hb
  unfold sha256Bytes at hb
  obtain ⟨l, hl, hbl⟩ := List.mem_flatten.mp hb
  obtain ⟨w, _, rfl⟩ := List.mem_map.mp hl
  simp only [List.mem_cons, List.not_mem_nil, or_false] at hbl
  rcases hbl with rfl | rfl | rfl | rfl
  all_goals exact Nat.and_le_right

/-- Every hexadecimal digit character of a value below sixteen is in the
lowercase digit list. -/
theorem hexChar_mem : ∀ n, n < 16 → hexDigits.contains (hexChar n) = true := by decide

/-- The hexadecimal digest string consists of lowercase hexadecimal digits
only. -/
theorem isLowerHex_sha256hex (msg : List Nat) : isLowerHex (sha256hex msg) = true := by
  unfold isLowerHex sha256hex
  rw [show (String.mk (((sha256Bytes msg).map byteToHexChars).flatten)).toList =
      ((sha256Bytes msg).map byteToHexChars).flatten from rfl]
  rw [List.all_eq_true]
  intro c hc
  obtain ⟨l, hl, hcl⟩ := List.mem_flatten.mp hc
  obtain ⟨b, hb, rfl⟩ := List.mem_map.mp hl
  have hble := sha256Bytes_le msg b hb
  simp only [byteToHexChars, List.mem_cons, List.not_mem_nil, or_false] at hcl
  rcases hcl with rfl | rfl
  · exact hexChar_mem (b / 16) (by omega)
  · exact hexChar_mem (b % 16) (by omega)

/-- C10: compute_sha256 is total: none exactly on a failing read, and on a
readable file it returns the lowercase hexadecimal SHA-256 digest of the
bytes of the file, streamed in fixed-size chunks. -/
theorem c10_compute_sha256_total (fs : String → Option (List Nat)) (p : String) :
    (fs p = none → compute_sha256 fs p = none) ∧
    (∀ bs, fs p = some bs →
      compute_sha256 fs p = some (sha256hex bs) ∧ isLowerHex (sha256hex bs) = true) := by
  constructor
  · intro h
    unfold compute_sha256
    rw [h]
  · intro bs h
    refine ⟨?_, isLowerHex_sha256hex bs⟩
    unfold compute_sha256
    rw [h]
    show some (Sha256Hasher.hexdigest _) = some (sha256hex bs)
    unfold Sha256Hasher.hexdigest
    rw [updateFold_acc]
    show some (sha256hex ([] ++ (readChunks bs).flatten)) = some (sha256hex bs)
    rw [List.nil_append]
    unfold readChunks
    rw [readChunksAux_flatten bs.length bs (Nat.le_refl _)]

/-- Witness for the C10 theorem, at an unreadable path and at an empty
file. -/
theorem c10_compute_sha256_total_witness :
    compute_sha256 (fun _ => none) "f" = none ∧
    compute_sha256 (fun _ => some []) "f" = some (sha256hex []) ∧
    isLowerHex (sha256hex []) = true :=
  ⟨(c10_compute_sha256_total (fun _ => none) "f").1 rfl,
   ((c10_compute_sha256_total (fun _ => some []) "f").2 [] rfl).1,
   ((c10_compute_sha256_total (fun _ => some []) "f").2 [] rfl).2⟩

/-- Unfolding of the removed-or-renamed fold: the rename entries, removed
entries and consumed paths are each a filterMap of the processed paths,
appended to the accumulators; in particular the candidate choice of each
path never depends on what earlier iterations consumed. -/
theorem diffRR_foldl (a b : Snapshot) : ∀ (ps : List String) (ren rem : List DiffEntry)
    (matched : List String),
    ps.foldl (renameStep a b) (ren, rem, matched) =
      (ren ++ ps.filterMap (fun p => match renCand a b p with
          | q :: _ => some (renEntryFor a b p q)
          | [] => none),
       rem ++ ps.filterMap (fun p => match renCand a b p with
          | _ :: _ => none
          | [] => some (remEntryFor a p)),
       matched ++ ps.filterMap (fun p => (renCand a b p).head?)) := by
  intro ps
  induction ps with
  | nil => intro ren rem matched; simp
  | cons p rest ih =>
      intro ren rem matched
      show rest.foldl (renameStep a b) (renameStep a b (ren, rem, matched) p) = _
      cases hc : renCand a b p with
      | nil =>
          rw [show renameStep a b (ren, rem, matched) p =
                (ren, rem ++ [remEntryFor a p], matched) by
              unfold renameStep; rw [hc]]
          rw [ih]
          simp [List.filterMap_cons, hc]
      | cons q qs =>
          rw [show renameStep a b (ren, rem, matched) p =
                (ren ++ [renEntryFor a b p q], rem, matched ++ [q]) by
              unfold renameStep; rw [hc]]
          rw [ih]
          simp [List.filterMap_cons, hc]

/-- The renamed list of diff as a filterMap over the paths of A absent
from B. -/
theorem diff_renamed_eq (a b : Snapshot) :
    (SnapshotManager.diff a b).renamed =
      (pathsAminusB a b).filterMap (fun p => match renCand a b p with
        | q :: _ => some (renEntryFor a b p q)
        | [] => none) := by
  show (diffRR a b).1 = _
  unfold diffRR
  rw [diffRR_foldl]
  simp

/-- The removed list of diff as a filterMap over the paths of A absent
from B. -/
theorem diff_removed_eq (a b : Snapshot) :
    (SnapshotManager.diff a b).removed =
      (pathsAminusB a b).filterMap (fun p => match renCand a b p with
        | _ :: _ => none
        | [] => some (remEntryFor a p)) := by
  show (diffRR a b).2.1 = _
  unfold diffRR
  rw [diffRR_foldl]
  simp

/-- The consumed set of diff as the heads of the candidate lists. -/
theorem diff_matched_eq (a b : Snapshot) :
    (diffRR a b).2.2 =
      (pathsAminusB a b).filterMap (fun p => (renCand a b p).head?) := by
  unfold diffRR
  rw [diffRR_foldl]
  simp

/-- C6 amended: each emitted rename pairs its old path with the head of
its candidate list, the first path of snapshot B in B file-list insertion
order that carries the same hash and is not a path of A; the consumed set
plays no role in the choice, and the whole renamed list is this filterMap
over the paths of A absent from B. -/
theorem c6_rename_choice (a b : Snapshot) :
    (SnapshotManager.diff a b).renamed =
      (pathsAminusB a b).filterMap (fun p => match renCand a b p with
        | q :: _ => some (renEntryFor a b p q)
        | [] => none) ∧
    (∀ e ∈ (SnapshotManager.diff a b).renamed, ∃ p q qs,
      renCand a b p = q :: qs ∧ e = renEntryFor a b p q) := by
  refine ⟨diff_renamed_eq a b, ?_⟩
  intro e he
  rw [diff_renamed_eq] at he
  obtain ⟨p, _, hfp⟩ := List.mem_filterMap.mp he
  cases hc : renCand a b p with
  | nil => rw [hc] at hfp; cases hfp
  | cons q qs =>
      rw [hc] at hfp
      exact ⟨p, q, qs, hc, (Option.some_inj.mp hfp).symm⟩

/-- Witness for the amended C6 theorem at the concrete snapshot pair. -/
theorem c6_rename_choice_witness :
    ∃ p q qs, renCand exA6 exB6 p = q :: qs ∧
      renEntryFor exA6 exB6 "p1" "zz" = renEntryFor exA6 exB6 p q :=
  (c6_rename_choice exA6 exB6).2 (renEntryFor exA6 exB6 "p1" "zz") (by decide)

/-- Bool containment from membership. -/
theorem contains_of_mem {α : Type} [BEq α] [LawfulBEq α] (l : List α) (x : α)
    (h : x ∈ l) : l.contains x = true := by simpa using h

/-- Membership from Bool containment. -/
theorem mem_of_contains {α : Type} [BEq α] [LawfulBEq α] (l : List α) (x : α)
    (h : l.contains x = true) : x ∈ l := by simpa using h

/-- Deduplication keeps only elements of the original list. -/
theorem dedupKeepFirst_mem : ∀ (l : List String) (p : String),
    p ∈ dedupKeepFirst l → p ∈ l := by
  intro l
  induction l with
  | nil => intro p h; cases h
  | cons q rest ih =>
      intro p h
      rcases List.mem_cons.mp h with rfl | h2
      · exact List.mem_cons_self _ _
      · exact List.mem_cons_of_mem _ (ih p (List.mem_filter.mp h2).1)

/-- Deduplication produces a list without duplicates. -/
theorem dedupKeepFirst_nodup : ∀ l : List String, (dedupKeepFirst l).Nodup := by
  intro l
  induction l with
  | nil => exact List.nodup_nil
  | cons q rest ih =>
      refine List.nodup_cons.mpr ⟨?_, ih.filter _⟩
      intro hq
      have := (List.mem_filter.mp hq).2
      simp at this

/-- A path of A absent from B fails the containment test over B file
paths. -/
theorem pathsAminusB_not_in_b (a b : Snapshot) (p : String)
    (h : p ∈ pathsAminusB a b) : ((b.files.map (fun f => f.path)).contains p) = false := by
  have h2 := (List.mem_filter.mp h).2
  simpa using h2

/-- A path of A absent from B passes the containment test over A file
paths. -/
theorem pathsAminusB_in_a (a b : Snapshot) (p : String)
    (h : p ∈ pathsAminusB a b) : ((a.files.map (fun f => f.path)).contains p) = true :=
  contains_of_mem _ _ (dedupKeepFirst_mem _ _ (List.mem_filter.mp h).1)

/-- A path of B absent from A fails the containment test over A file
paths. -/
theorem pathsBminusA_not_in_a (a b : Snapshot) (p : String)
    (h : p ∈ pathsBminusA a b) : ((a.files.map (fun f => f.path)).contains p) = false := by
  have h2 := (List.mem_filter.mp h).2
  simpa using h2

/-- A common path passes the containment test over the B file paths. -/
theorem pathsAinterB_in_b (a b : Snapshot) (p : String)
    (h : p ∈ pathsAinterB a b) : ((b.files.map (fun f => f.path)).contains p) = true :=
  (List.mem_filter.mp h).2

/-- A common path passes the containment test over the A file paths. -/
theorem pathsAinterB_in_a (a b : Snapshot) (p : String)
    (h : p ∈ pathsAinterB a b) : ((a.files.map (fun f => f.path)).contains p) = true :=
  contains_of_mem _ _ (dedupKeepFirst_mem _ _ (List.mem_filter.mp h).1)

/-- Path projection of a removed entry. -/
theorem remEntryFor_path (a : Snapshot) (p : String) : (remEntryFor a p).path = p := rfl

/-- Path projection of a renamed entry. -/
theorem renEntryFor_path (a b : Snapshot) (p q : String) : (renEntryFor a b p q).path = q := rfl

/-- Old-path projection of a renamed entry. -/
theorem renEntryFor_old (a b : Snapshot) (p q : String) :
    (renEntryFor a b p q).old_path = some p := rfl

/-- Paths of the removed entries: the loop paths without candidates. -/
theorem removedPaths_of (a b : Snapshot) : ∀ ps : List String,
    ((ps.filterMap (fun p => match renCand a b p with
        | _ :: _ => none
        | [] => some (remEntryFor a p))).map (fun e => e.path)) =
      ps.filter (fun p => (renCand a b p).isEmpty) := by
  intro ps
  induction ps with
  | nil => rfl
  | cons p rest ih =>
      cases hc : renCand a b p with
      | nil => simp [List.filterMap_cons, hc, List.filter_cons, remEntryFor_path, ih]
      | cons q qs => simp [List.filterMap_cons, hc, List.filter_cons, ih]

/-- Old paths of the renamed entries: the loop paths with candidates. -/
theorem renOldPaths_of (a b : Snapshot) : ∀ ps : List String,
    ((ps.filterMap (fun p => match renCand a b p with
        | q :: _ => some (renEntryFor a b p q)
        | [] => none)).filterMap (fun e => e.old_path)) =
      ps.filter (fun p => !(renCand a b p).isEmpty) := by
  intro ps
  induction ps with
  | nil => rfl
  | cons p rest ih =>
      cases hc : renCand a b p with
      | nil => simp [List.filterMap_cons, hc, List.filter_cons, ih]
      | cons q qs => simp [List.filterMap_cons, hc, List.filter_cons, renEntryFor_old, ih]

/-- New paths of the renamed entries: the candidate heads, which form the
consumed set. -/
theorem renNewPaths_of (a b : Snapshot) : ∀ ps : List String,
    ((ps.filterMap (fun p => match renCand a b p with
        | q :: _ => some (renEntryFor a b p q)
        | [] => none)).map (fun e => e.path)) =
      ps.filterMap (fun p => (renCand a b p).head?) := by
  intro ps
  induction ps with
  | nil => rfl
  | cons p rest ih =>
      cases hc : renCand a b p with
      | nil => simp [List.filterMap_cons, hc, ih]
      | cons q qs => simp [List.filterMap_cons, hc, renEntryFor_path, ih]

/-- Counting over the two halves of a Bool filter split recovers the
count over the list. -/
theorem count_filter_split (f : String → Bool) (p : String) : ∀ l : List String,
    (l.filter f).count p + (l.filter (fun x => !(f x))).count p = l.count p := by
  intro l
  induction l with
  | nil => rfl
  | cons x rest ih =>
      cases hf : f x with
      | true =>
          by_cases hxp : (x == p) = true
          · simp [List.filter_cons, hf, List.count_cons, hxp]
            omega
          · simp only [Bool.not_eq_true] at hxp
            simp [List.filter_cons, hf, List.count_cons, hxp]
            omega
      | false =>
          by_cases hxp : (x == p) = true
          · simp [List.filter_cons, hf, List.count_cons, hxp]
            omega
          · simp only [Bool.not_eq_true] at hxp
            simp [List.filter_cons, hf, List.count_cons, hxp]
            omega

/-- Paths of the added entries: the paths of B absent from A that the
consumed set does not hold. -/
theorem diff_addedPaths (a b : Snapshot) :
    ((SnapshotManager.diff a b).added.map (fun e => e.path)) =
      (pathsBminusA a b).filter (fun p => !((diffRR a b).2.2.contains p)) := by
  show ((((pathsBminusA a b).filter (fun p => !((diffRR a b).2.2.contains p))).map _).map _) = _
  rw [List.map_map]
  exact List.map_id _

/-- Paths of the modified entries over an arbitrary path list. -/
theorem modifiedPaths_of (a b : Snapshot) : ∀ ps : List String,
    ((ps.filterMap (fun p =>
        if modChanged (mapGet a.files p) (mapGet b.files p) then
          some ({ change := "modified", path := p, old_path := none,
                  old_size := some (mapGet a.files p).size,
                  new_size := some (mapGet b.files p).size,
                  size_delta := some ((mapGet b.files p).size - (mapGet a.files p).size) } :
                 DiffEntry)
        else none)).map (fun e => e.path)) =
      ps.filter (fun p => modChanged (mapGet a.files p) (mapGet b.files p)) := by
  intro ps
  induction ps with
  | nil => rfl
  | cons p rest ih =>
      cases hm : modChanged (mapGet a.files p) (mapGet b.files p) with
      | true => simp [List.filterMap_cons, hm, List.filter_cons, ih]
      | false => simp [List.filterMap_cons, hm, List.filter_cons, ih]

/-- Paths of the modified entries of diff: the common paths whose changed
test fires. -/
theorem diff_modifiedPaths (a b : Snapshot) :
    ((SnapshotManager.diff a b).modified.map (fun e => e.path)) =
      (pathsAinterB a b).filter (fun p => modChanged (mapGet a.files p) (mapGet b.files p)) :=
  modifiedPaths_of a b (pathsAinterB a b)

/-- C5 amended: in every diff the added, removed and modified path lists
are pairwise disjoint and disjoint from the renamed old paths, every path
of A absent from B is accounted for exactly once as a removed path or a
renamed old path, and an added entry never carries a consumed renamed new
path; the lone failure of the claimed invariant is that one renamed NEW
path can appear in several renamed entries, as the counterexample shows. -/
theorem c5_diff_lists (a b : Snapshot) (p : String) :
    ((((SnapshotManager.diff a b).removed.map (fun e => e.path)).contains p) &&
      (((SnapshotManager.diff a b).modified.map (fun e => e.path)).contains p)) = false ∧
    ((((SnapshotManager.diff a b).removed.map (fun e => e.path)).contains p) &&
      (((SnapshotManager.diff a b).added.map (fun e => e.path)).contains p)) = false ∧
    ((((SnapshotManager.diff a b).modified.map (fun e => e.path)).contains p) &&
      (((SnapshotManager.diff a b).added.map (fun e => e.path)).contains p)) = false ∧
    ((((SnapshotManager.diff a b).added.map (fun e => e.path)).contains p) &&
      (((SnapshotManager.diff a b).renamed.map (fun e => e.path)).contains p)) = false ∧
    ((((SnapshotManager.diff a b).renamed.filterMap (fun e => e.old_path)).contains p) &&
      (((SnapshotManager.diff a b).modified.map (fun e => e.path)).contains p)) = false ∧
    ((((SnapshotManager.diff a b).renamed.filterMap (fun e => e.old_path)).contains p) &&
      (((SnapshotManager.diff a b).added.map (fun e => e.path)).contains p)) = false ∧
    (((SnapshotManager.diff a b).removed.map (fun e => e.path)).count p +
      ((SnapshotManager.diff a b).renamed.filterMap (fun e => e.old_path)).count p =
      (pathsAminusB a b).count p) ∧
    (pathsAminusB a b).count p ≤ 1 := by
  have hrm : ((SnapshotManager.diff a b).removed.map (fun e => e.path)) =
      (pathsAminusB a b).filter (fun q => (renCand a b q).isEmpty) := by
    rw [diff_removed_eq]; exact removedPaths_of a b _
  have hro : ((SnapshotManager.diff a b).renamed.filterMap (fun e => e.old_path)) =
      (pathsAminusB a b).filter (fun q => !(renCand a b q).isEmpty) := by
    rw [diff_renamed_eq]; exact renOldPaths_of a b _
  have hrn : ((SnapshotManager.diff a b).renamed.map (fun e => e.path)) =
      (pathsAminusB a b).filterMap (fun q => (renCand a b q).head?) := by
    rw [diff_renamed_eq]; exact renNewPaths_of a b _
  have hmo := diff_modifiedPaths a b
  have had := diff_addedPaths a b
  have hnodup : (pathsAminusB a b).Nodup := by
    unfold pathsAminusB pathsList
    exact (dedupKeepFirst_nodup _).filter _
  refine ⟨?_, ?_, ?_, ?_, ?_, ?_, ?_, ?_⟩
  · cases h1 : (((SnapshotManager.diff a b).removed.map (fun e => e.path)).contains p) with
    | false => simp
    | true =>
        have hp1 := mem_of_contains _ _ h1
        rw [hrm] at hp1
        have hnb := pathsAminusB_not_in_b a b p (List.mem_filter.mp hp1).1
        cases h2 : (((SnapshotManager.diff a b).modified.map (fun e => e.path)).contains p) with
        | false => simp
        | true =>
            have hp2 := mem_of_contains _ _ h2
            rw [hmo] at hp2
            have hb := pathsAinterB_in_b a b p (List.mem_filter.mp hp2).1
            simp at hnb hb
            obtain ⟨x, hx, hxp⟩ := hb
            exact absurd hxp (hnb x hx)
  · cases h1 : (((SnapshotManager.diff a b).removed.map (fun e => e.path)).contains p) with
    | false => simp
    | true =>
        have hp1 := mem_of_contains _ _ h1
        rw [hrm] at hp1
        have hna := pathsAminusB_in_a a b p (List.mem_filter.mp hp1).1
        cases h2 : (((SnapshotManager.diff a b).added.map (fun e => e.path)).contains p) with
        | false => simp
        | true =>
            have hp2 := mem_of_contains _ _ h2
            rw [had] at hp2
            have hb := pathsBminusA_not_in_a a b p (List.mem_filter.mp hp2).1
            simp at hb hna
            obtain ⟨x, hx, hxp⟩ := hna
            exact absurd hxp (hb x hx)
  · cases h1 : (((SnapshotManager.diff a b).modified.map (fun e => e.path)).contains p) with
    | false => simp
    | true =>
        have hp1 := mem_of_contains _ _ h1
        rw [hmo] at hp1
        have hna := pathsAinterB_in_a a b p (List.mem_filter.mp hp1).1
        cases h2 : (((SnapshotManager.diff a b).added.map (fun e => e.path)).contains p) with
        | false => simp
        | true =>
            have hp2 := mem_of_contains _ _ h2
            rw [had] at hp2
            have hb := pathsBminusA_not_in_a a b p (List.mem_filter.mp hp2).1
            simp at hb hna
            obtain ⟨x, hx, hxp⟩ := hna
            exact absurd hxp (hb x hx)
  · cases h1 : (((SnapshotManager.diff a b).added.map (fun e => e.path)).contains p) with
    | false => simp
    | true =>
        have hp1 := mem_of_contains _ _ h1
        rw [had] at hp1
        have hnm := (List.mem_filter.mp hp1).2
        cases h2 : (((SnapshotManager.diff a b).renamed.map (fun e => e.path)).contains p) with
        | false => simp
        | true =>
            have hp2 := mem_of_contains _ _ h2
            rw [hrn, ← diff_matched_eq] at hp2
            simp at hnm
            exact absurd hp2 hnm
  · cases h1 : (((SnapshotManager.diff a b).renamed.filterMap (fun e => e.old_path)).contains p) with
    | false => simp
    | true =>
        have hp1 := mem_of_contains _ _ h1
        rw [hro] at hp1
        have hnb := pathsAminusB_not_in_b a b p (List.mem_filter.mp hp1).1
        cases h2 : (((SnapshotManager.diff a b).modified.map (fun e => e.path)).contains p) with
        | false => simp
        | true =>
            have hp2 := mem_of_contains _ _ h2
            rw [hmo] at hp2
            have hb := pathsAinterB_in_b a b p (List.mem_filter.mp hp2).1
            simp at hnb hb
            obtain ⟨x, hx, hxp⟩ := hb
            exact absurd hxp (hnb x hx)
  · cases h1 : (((SnapshotManager.diff a b).renamed.filterMap (fun e => e.old_path)).contains p) with
    | false => simp
    | true =>
        have hp1 := mem_of_contains _ _ h1
        rw [hro] at hp1
        have hna := pathsAminusB_in_a a b p (List.mem_filter.mp hp1).1
        cases h2 : (((SnapshotManager.diff a b).added.map (fun e => e.path)).contains p) with
        | false => simp
        | true =>
            have hp2 := mem_of_contains _ _ h2
            rw [had] at hp2
            have hb := pathsBminusA_not_in_a a b p (List.mem_filter.mp hp2).1
            simp at hb hna
            obtain ⟨x, hx, hxp⟩ := hna
            exact absurd hxp (hb x hx)
  · rw [hrm, hro]
    exact count_filter_split (fun q => (renCand a b q).isEmpty) p (pathsAminusB a b)
  · exact List.nodup_iff_count_le_one.mp hnodup p

/-- C9 amended: the greedy pass iterates the index keys in insertion
order, so the same indexed files added in two different orders yield key
sequences that are permutations of each other, yet the single emitted
cluster has two members under one order and three under the other. -/
theorem c9_order_dependent :
    (exIdx9a.map (fun kv => kv.1)) = [0, 1, 3] ∧
    (exIdx9b.map (fun kv => kv.1)) = [1, 0, 3] ∧
    List.Perm (exIdx9a.map (fun kv => kv.1)) (exIdx9b.map (fun kv => kv.1)) ∧
    (nearClusters 1 (exIdx9a.map (fun kv => kv.1))).map List.length = [2] ∧
    (nearClusters 1 (exIdx9b.map (fun kv => kv.1))).map List.length = [3] := by decide

/-- Every directory key after the chain walk was already indexed or is a
strict extension of the consumed components and a prefix of the walked
path. -/
theorem chainGo_dirs_sub (md : List String → Metadata) :
    ∀ (rest : List String) (t : TreeState) (cur : Option (List String))
      (done : List String), ∀ d ∈ (chainGo md t cur done rest).dirs,
      d ∈ t.dirs ∨ (done.length < d.length ∧ d <+: (done ++ rest)) := by
  intro rest
  induction rest with
  | nil => intro t cur done d hd; exact Or.inl hd
  | cons part tail ih =>
      intro t cur done d hd
      simp only [chainGo] at hd
      by_cases hc : (t.dirs.contains (done ++ [part])) = true
      · rw [if_pos hc] at hd
        rcases ih t (some (done ++ [part])) (done ++ [part]) d hd with h | ⟨hlen, hpre⟩
        · exact Or.inl h
        · refine Or.inr ⟨?_, ?_⟩
          · simp only [List.length_append, List.length_cons, List.length_nil] at hlen
            omega
          · rw [List.append_assoc, List.singleton_append] at hpre
            exact hpre
      · simp only [Bool.not_eq_true] at hc
        rw [if_neg (by rw [hc]; exact Bool.false_ne_true)] at hd
        cases cur with
        | some c =>
            rcases ih _ (some (done ++ [part])) (done ++ [part]) d hd with h | ⟨hlen, hpre⟩
            · rcases List.mem_append.mp h with h1 | h2
              · exact Or.inl h1
              · have hdnext : d = done ++ [part] := List.mem_singleton.mp h2
                refine Or.inr ⟨by simp [hdnext], ?_⟩
                rw [hdnext]
                exact ⟨tail, by simp⟩
            · refine Or.inr ⟨?_, ?_⟩
              · simp only [List.length_append, List.length_cons, List.length_nil] at hlen
                omega
              · rw [List.append_assoc, List.singleton_append] at hpre
                exact hpre
        | none =>
            rcases ih _ (some (done ++ [part])) (done ++ [part]) d hd with h | ⟨hlen, hpre⟩
            · rcases List.mem_append.mp h with h1 | h2
              · exact Or.inl h1
              · have hdnext : d = done ++ [part] := List.mem_singleton.mp h2
                refine Or.inr ⟨by simp [hdnext], ?_⟩
                rw [hdnext]
                exact ⟨tail, by simp⟩
            · refine Or.inr ⟨?_, ?_⟩
              · simp only [List.length_append, List.length_cons, List.length_nil] at hlen
                omega
              · rw [List.append_assoc, List.singleton_append] at hpre
                exact hpre

/-- Every directory key after one attach was already indexed or is a
nonempty prefix of the parent of the attached path. -/
theorem attach_dirs (md : List String → Metadata) (t : TreeState) (p : List String)
    (m : Metadata) (hs : List (String × String)) :
    ∀ d ∈ (t.attach_file md p m hs).dirs,
      d ∈ t.dirs ∨ (d ≠ [] ∧ d <+: p.dropLast) := by
  intro d hd
  unfold TreeState.attach_file chain_path at hd
  by_cases hc : (t.dirs.contains p.dropLast) = true
  · rw [if_pos hc] at hd
    exact Or.inl hd
  · simp only [Bool.not_eq_true] at hc
    rw [if_neg (by rw [hc]; exact Bool.false_ne_true)] at hd
    rcases chainGo_dirs_sub md p.dropLast t none [] d hd with h | ⟨hlen, hpre⟩
    · exact Or.inl h
    · refine Or.inr ⟨?_, ?_⟩
      · intro hnil
        rw [hnil] at hlen
        simp at hlen
      · rw [List.nil_append] at hpre
        exact hpre

/-- Every value held anywhere in the association list after an append was
there before or is the appended value. -/
theorem alistAppend_values {κ α : Type} [BEq κ] (l : List (κ × List α)) (k : κ) (v : α) :
    ∀ x ∈ (((alistAppend l k v).map (fun kv => kv.2)).flatten),
      x ∈ ((l.map (fun kv => kv.2)).flatten) ∨ x = v := by
  induction l with
  | nil =>
      intro x hx
      simp [alistAppend] at hx
      exact Or.inr hx
  | cons h rest ih =>
      obtain ⟨hk, hvs⟩ := h
      intro x hx
      by_cases he : (hk == k) = true
      · simp only [alistAppend, he, if_true, List.map_cons, List.flatten_cons] at hx
        rcases List.mem_append.mp hx with h1 | h2
        · rcases List.mem_append.mp h1 with h3 | h4
          · exact Or.inl (by simp [h3])
          · exact Or.inr (List.mem_singleton.mp h4)
        · exact Or.inl (by simp only [List.map_cons, List.flatten_cons]; exact List.mem_append_right _ h2)
      · simp only [Bool.not_eq_true] at he
        simp only [alistAppend, he, Bool.false_eq_true, if_false, List.map_cons,
          List.flatten_cons] at hx
        rcases List.mem_append.mp hx with h1 | h2
        · exact Or.inl (by simp only [List.map_cons, List.flatten_cons]; exact List.mem_append_left _ h1)
        · rcases ih x h2 with h3 | h4
          · exact Or.inl (by simp only [List.map_cons, List.flatten_cons]; exact List.mem_append_right _ h3)
          · exact Or.inr h4

/-- Every FileNode after one attach was there before or is the attached
node. -/
theorem attach_files (md : List String → Metadata) (t : TreeState) (p : List String)
    (m : Metadata) (hs : List (String × String)) :
    ∀ f ∈ allFileNodes (t.attach_file md p m hs),
      f ∈ allFileNodes t ∨ f = { path := p, metadata := m, hashes := hs } := by
  intro f hf
  unfold TreeState.attach_file at hf
  unfold allFileNodes at hf ⊢
  by_cases hc : (t.dirs.contains p.dropLast) = true
  · rw [chain_path, if_pos hc] at hf
    exact alistAppend_values _ _ _ f hf
  · simp only [Bool.not_eq_true] at hc
    rw [chain_path, if_neg (by rw [hc]; exact Bool.false_ne_true)] at hf
    rcases alistAppend_values _ _ _ f hf with h1 | h2
    · rw [chainGo_filesAt] at h1
      exact Or.inl h1
    · exact Or.inr h2

/-- Every FileNode after an attach sequence was there before or is one of
the attached nodes. -/
theorem attach_fold_files (md : List String → Metadata) :
    ∀ (calls : List (List String × Metadata × List (String × String))) (t : TreeState),
      ∀ f ∈ allFileNodes (calls.foldl (fun acc c => acc.attach_file md c.1 c.2.1 c.2.2) t),
        f ∈ allFileNodes t ∨
          ∃ c ∈ calls, f = { path := c.1, metadata := c.2.1, hashes := c.2.2 } := by
  intro calls
  induction calls with
  | nil => intro t f hf; exact Or.inl hf
  | cons c rest ih =>
      intro t f hf
      rcases ih (t.attach_file md c.1 c.2.1 c.2.2) f hf with h1 | ⟨c2, hc2, hfc⟩
      · rcases attach_files md t c.1 c.2.1 c.2.2 f h1 with h2 | h3
        · exact Or.inl h2
        · exact Or.inr ⟨c, List.mem_cons_self _ _, h3⟩
      · exact Or.inr ⟨c2, List.mem_cons_of_mem _ hc2, hfc⟩

/-- Every directory key after an attach sequence was there before or is a
nonempty prefix of the parent of one of the attached paths. -/
theorem attach_fold_dirs (md : List String → Metadata) :
    ∀ (calls : List (List String × Metadata × List (String × String))) (t : TreeState),
      ∀ d ∈ (calls.foldl (fun acc c => acc.attach_file md c.1 c.2.1 c.2.2) t).dirs,
        d ∈ t.dirs ∨ ∃ c ∈ calls, d ≠ [] ∧ d <+: c.1.dropLast := by
  intro calls
  induction calls with
  | nil => intro t d hd; exact Or.inl hd
  | cons c rest ih =>
      intro t d hd
      rcases ih (t.attach_file md c.1 c.2.1 c.2.2) d hd with h1 | ⟨c2, hc2, hdc⟩
      · rcases attach_dirs md t c.1 c.2.1 c.2.2 d h1 with h2 | h3
        · exact Or.inl h2
        · exact Or.inr ⟨c, List.mem_cons_self _ _, h3⟩
      · exact Or.inr ⟨c2, List.mem_cons_of_mem _ hc2, hdc⟩

/-- C2 amended: over any sequence of attach_file calls on a fresh tree,
every FileNode path is one of the attached paths, hence has the scan root
as a prefix when every attached path does; but the auto-created ancestor
DirNodes are exactly prefixes of the parents of attached paths, which
reach above the scan root up to the filesystem root component (see the
counterexample for a directory above the root). -/
theorem c2_files_and_dirs (md : List String → Metadata) (root : List String)
    (calls : List (List String × Metadata × List (String × String)))
    (hcalls : ∀ c ∈ calls, root <+: c.1) :
    (∀ f ∈ allFileNodes
        (calls.foldl (fun acc c => acc.attach_file md c.1 c.2.1 c.2.2) (freshTree root)),
      f.path ∈ calls.map (fun c => c.1) ∧ root <+: f.path) ∧
    (∀ d ∈ (calls.foldl (fun acc c => acc.attach_file md c.1 c.2.1 c.2.2)
        (freshTree root)).dirs,
      d ≠ [] ∧ ∃ q ∈ calls.map (fun c => c.1), d <+: q.dropLast) := by
  constructor
  · intro f hf
    rcases attach_fold_files md calls (freshTree root) f hf with h1 | ⟨c, hc, hfc⟩
    · cases h1
    · constructor
      · rw [hfc]
        exact List.mem_map.mpr ⟨c, hc, rfl⟩
      · rw [hfc]
        exact hcalls c hc
  · intro d hd
    rcases attach_fold_dirs md calls (freshTree root) d hd with h1 | ⟨c, hc, hne, hpre⟩
    · cases h1
    · exact ⟨hne, c.1, List.mem_map.mpr ⟨c, hc, rfl⟩, hpre⟩

/-- Witness for the amended C2 theorem at the single-call example; the
resulting tree is exT2, whose counterexample directory slash lies above
the scan root. -/
theorem c2_files_and_dirs_witness :
    (∀ f ∈ allFileNodes
        (exCalls2.foldl (fun acc c => acc.attach_file dummyDirMeta c.1 c.2.1 c.2.2)
          (freshTree ["/", "r"])),
      f.path ∈ exCalls2.map (fun c => c.1) ∧ ["/", "r"] <+: f.path) ∧
    (∀ d ∈ (exCalls2.foldl (fun acc c => acc.attach_file dummyDirMeta c.1 c.2.1 c.2.2)
        (freshTree ["/", "r"])).dirs,
      d ≠ [] ∧ ∃ q ∈ exCalls2.map (fun c => c.1), d <+: q.dropLast) :=
  c2_files_and_dirs dummyDirMeta ["/", "r"] exCalls2 (by decide)
